import Mathlib

/-!
Verification of the FreeRTOS deferred-logging core (format analyzer, message
pool, queue submission, worker fan-out) against its design document.

The C sources are shallowly embedded: format strings are lists of characters
(the list holds the bytes before the terminating NUL, and reading past the
end of the list behaves like reading the terminator), the variadic argument
list is the list of C types the call site passes (the claims under study
depend only on the types and byte counts, never on the argument values),
buffers are tracked as lists of write events (start offset and width), and
the module-scoped pool / queue / registry singletons are explicit state
records threaded through the functions.  Machine-dependent type widths
(sizeof int, sizeof long, ...) are a parameter record so theorems hold on
every ABI; concrete evaluations instantiate it at a 32-bit embedded ABI.
Fallible C functions whose defined behavior the caller can violate (va_arg
on an exhausted or wrongly typed argument list) return Option, with none
standing for undefined behavior.
-/

namespace FreeRTOSLogger

/-- Byte widths of the C scalar types the logger captures, one field per
sizeof the source mentions, plus sizeof of the log_msg_t header struct. -/
structure SizeModel where
  sizeof_int : Nat
  sizeof_long : Nat
  sizeof_long_long : Nat
  sizeof_size_t : Nat
  sizeof_ptrdiff_t : Nat
  sizeof_intmax_t : Nat
  sizeof_double : Nat
  sizeof_char_ptr : Nat
  sizeof_void_ptr : Nat
  sizeof_int_ptr : Nat
  sizeof_log_msg_t : Nat

/-- The 32-bit embedded ABI the library targets (ILP32: int, long, size_t,
ptrdiff_t and pointers are 4 bytes; long long, intmax_t and double are 8).
log_msg_t is three pointers, a padded uint8_t level and a size_t: 20 bytes. -/
def ilp32 : SizeModel where
  sizeof_int := 4
  sizeof_long := 4
  sizeof_long_long := 8
  sizeof_size_t := 4
  sizeof_ptrdiff_t := 4
  sizeof_intmax_t := 8
  sizeof_double := 8
  sizeof_char_ptr := 4
  sizeof_void_ptr := 4
  sizeof_int_ptr := 4
  sizeof_log_msg_t := 20

/-- The C type a conversion specification makes va_arg fetch. -/
inductive ArgTy where
  | argInt
  | argLong
  | argLongLong
  | argSizeT
  | argPtrdiffT
  | argIntmaxT
  | argDouble
  | argCharPtr
  | argVoidPtr
  | argIntPtr
deriving DecidableEq

/-- sizeof the fetched type. -/
def ArgTy.size (sm : SizeModel) : ArgTy → Nat
  | .argInt => sm.sizeof_int
  | .argLong => sm.sizeof_long
  | .argLongLong => sm.sizeof_long_long
  | .argSizeT => sm.sizeof_size_t
  | .argPtrdiffT => sm.sizeof_ptrdiff_t
  | .argIntmaxT => sm.sizeof_intmax_t
  | .argDouble => sm.sizeof_double
  | .argCharPtr => sm.sizeof_char_ptr
  | .argVoidPtr => sm.sizeof_void_ptr
  | .argIntPtr => sm.sizeof_int_ptr

/-- The widest type the capture loop can write in one conversion. -/
def maxArgSize (sm : SizeModel) : Nat :=
  max sm.sizeof_int (max sm.sizeof_long (max sm.sizeof_long_long
    (max sm.sizeof_size_t (max sm.sizeof_ptrdiff_t (max sm.sizeof_intmax_t
      (max sm.sizeof_double (max sm.sizeof_char_ptr
        (max sm.sizeof_void_ptr sm.sizeof_int_ptr))))))))

/-- log_format.c line 33: the flag characters both scanners skip. -/
def isFlagChar (c : Char) : Bool :=
  c = '-' || c = '+' || c = ' ' || c = '#' || c = '0'

/-- log_format.c line 36: an ASCII decimal digit. -/
def isDigitChar (c : Char) : Bool :=
  '0' ≤ c && c ≤ '9'

/-- The flag-skipping loop shared by both scanners (log_format.c lines 33-35
and 131-133). -/
def skipFlags : List Char → List Char
  | [] => []
  | c :: r => if isFlagChar c then skipFlags r else c :: r

/-- The digit-skipping loop (width, and, after a dot, precision). -/
def skipDigits : List Char → List Char
  | [] => []
  | c :: r => if isDigitChar c then skipDigits r else c :: r

/-- Lines 38-42: an optional dot followed by precision digits. -/
def skipPrecisionPart : List Char → List Char
  | [] => []
  | c :: r => if c = '.' then skipDigits r else c :: r

/-- Lines 32-42: skip flags, then the numeric width, then .precision. -/
def skipFlagsWidthPrecision (l : List Char) : List Char :=
  skipPrecisionPart (skipDigits (skipFlags l))

/-- The switch at log_format.c lines 45-107 (identically 143-219), applied
to the characters after the flags/width/precision: classifies the length
modifier plus conversion character into the fetched C type (none when the
inner switch has no matching case, so nothing is fetched), and returns the
remaining characters after the final p++ of the loop body.  An empty list
plays the role of the NUL terminator. -/
def convSpec : List Char → Option ArgTy × List Char
  | [] => (none, [])
  | 'h' :: r =>
    match r with
    | 'h' :: r2 => (some .argInt, r2.drop 1)
    | _ => (some .argInt, r.drop 1)
  | 'l' :: r =>
    match r with
    | 'l' :: r2 => (some .argLongLong, r2.drop 1)
    | _ => (some .argLong, r.drop 1)
  | 'z' :: r => (some .argSizeT, r.drop 1)
  | 't' :: r => (some .argPtrdiffT, r.drop 1)
  | 'j' :: r => (some .argIntmaxT, r.drop 1)
  | c :: r =>
    if c = 'd' ∨ c = 'i' ∨ c = 'o' ∨ c = 'u' ∨ c = 'x' ∨ c = 'X' ∨ c = 'c' then
      (some .argInt, r)
    else if c = 'f' ∨ c = 'F' ∨ c = 'e' ∨ c = 'E' ∨ c = 'g' ∨ c = 'G' then
      (some .argDouble, r)
    else if c = 's' then (some .argCharPtr, r)
    else if c = 'p' then (some .argVoidPtr, r)
    else if c = 'n' then (some .argIntPtr, r)
    else (none, r)

theorem skipFlags_length_le (l : List Char) : (skipFlags l).length ≤ l.length := by
  induction l with
  | nil => simp [skipFlags]
  | cons c r ih =>
    simp only [skipFlags]
    split
    · simpa using Nat.le_succ_of_le ih
    · simp

theorem skipDigits_length_le (l : List Char) : (skipDigits l).length ≤ l.length := by
  induction l with
  | nil => simp [skipDigits]
  | cons c r ih =>
    simp only [skipDigits]
    split
    · simpa using Nat.le_succ_of_le ih
    · simp

theorem skipPrecisionPart_length_le (l : List Char) :
    (skipPrecisionPart l).length ≤ l.length := by
  cases l with
  | nil => simp [skipPrecisionPart]
  | cons c r =>
    simp only [skipPrecisionPart]
    split
    · simpa using Nat.le_succ_of_le (skipDigits_length_le r)
    · simp

theorem skipFlagsWidthPrecision_length_le (l : List Char) :
    (skipFlagsWidthPrecision l).length ≤ l.length := by
  unfold skipFlagsWidthPrecision
  exact le_trans (skipPrecisionPart_length_le _)
    (le_trans (skipDigits_length_le _) (skipFlags_length_le _))

theorem convSpec_snd_length_le (l : List Char) : (convSpec l).2.length ≤ l.length := by
  unfold convSpec
  split
  · simp
  · split <;> simp [List.length_drop] <;> omega
  · split <;> simp [List.length_drop] <;> omega
  · simp [List.length_drop]; omega
  · simp [List.length_drop]; omega
  · simp [List.length_drop]; omega
  · split <;> (try split) <;> (try split) <;> (try split) <;> (try split) <;> simp

/-- log_format_calculate_buffer_size's scanning loop (log_format.c lines
28-112) on the characters of a non-null format string. -/
def calcLoop (sm : SizeModel) : List Char → Nat
  | [] => 0
  | c :: r =>
    if c = '%' ∧ r.head? ≠ some '%' then
      let s := convSpec (skipFlagsWidthPrecision r)
      (match s.1 with
       | some t => t.size sm
       | none => 0) + calcLoop sm s.2
    else if c = '%' ∧ r.head? = some '%' then
      calcLoop sm (r.drop 1)
    else
      calcLoop sm r
termination_by l => l.length
decreasing_by
  all_goals
    have h1 := convSpec_snd_length_le (skipFlagsWidthPrecision r)
    have h2 := skipFlagsWidthPrecision_length_le r
    simp_all
    try omega

/-- log_format_calculate_buffer_size (log_format.c lines 21-115): none is a
NULL fmt_str pointer, for which the function returns 0. -/
def log_format_calculate_buffer_size (sm : SizeModel) : Option (List Char) → Nat
  | none => 0
  | some fmt => calcLoop sm fmt

/-- One store the capture loop performs: size bytes at offsets
offset, offset+1, ..., offset+size-1 of the destination buffer. -/
structure WriteEvent where
  offset : Nat
  size : Nat
deriving DecidableEq

/-- va_arg at the given type: defined (and consuming one argument) exactly
when the next argument has that promoted type; anything else is C undefined
behavior, returned as none. -/
def takeArg (t : ArgTy) : List ArgTy → Option (List ArgTy)
  | [] => none
  | a :: r => if a = t then some r else none

/-- log_format_copy_args_to_buffer's scanning loop (log_format.c lines
126-224): same classification as calcLoop; each fetched argument is stored
whole at the running offset bytes_written, which the loop condition compares
against buffer_size before examining each character.  Returns the write
events and the final bytes_written. -/
def copyLoop (sm : SizeModel) (cap : Nat) :
    List Char → List ArgTy → Nat → Option (List WriteEvent × Nat)
  | [], _, bw => some ([], bw)
  | c :: r, args, bw =>
    if bw < cap then
      if c = '%' ∧ r.head? ≠ some '%' then
        let s := convSpec (skipFlagsWidthPrecision r)
        match s.1 with
        | some t =>
          match takeArg t args with
          | none => none
          | some args2 =>
            (copyLoop sm cap s.2 args2 (bw + t.size sm)).map
              (fun p => (⟨bw, t.size sm⟩ :: p.1, p.2))
        | none => copyLoop sm cap s.2 args bw
      else if c = '%' ∧ r.head? = some '%' then
        copyLoop sm cap (r.drop 1) args bw
      else
        copyLoop sm cap r args bw
    else
      some ([], bw)
termination_by f _ _ => f.length
decreasing_by
  all_goals
    have h1 := convSpec_snd_length_le (skipFlagsWidthPrecision r)
    have h2 := skipFlagsWidthPrecision_length_le r
    simp_all
    try omega

/-- log_format_copy_args_to_buffer (log_format.c lines 117-227): returns 0
immediately (writing nothing) when the destination is NULL, fmt_str is NULL
or buffer_size is 0. -/
def log_format_copy_args_to_buffer (sm : SizeModel) (bufferIsNull : Bool)
    (buffer_size : Nat) (fmt_str : Option (List Char)) (args : List ArgTy) :
    Option (List WriteEvent × Nat) :=
  match fmt_str with
  | none => some ([], 0)
  | some f =>
    if bufferIsNull ∨ buffer_size = 0 then some ([], 0)
    else copyLoop sm buffer_size f args 0

/-- The sequence of promoted C types a format string makes the two scanners
fetch, in order: the argument list a call site passing matching arguments
supplies. -/
def argTypes : List Char → List ArgTy
  | [] => []
  | c :: r =>
    if c = '%' ∧ r.head? ≠ some '%' then
      let s := convSpec (skipFlagsWidthPrecision r)
      match s.1 with
      | some t => t :: argTypes s.2
      | none => argTypes s.2
    else if c = '%' ∧ r.head? = some '%' then
      argTypes (r.drop 1)
    else
      argTypes r
termination_by l => l.length
decreasing_by
  all_goals
    have h1 := convSpec_snd_length_le (skipFlagsWidthPrecision r)
    have h2 := skipFlagsWidthPrecision_length_le r
    simp_all
    try omega

/-- A printf length modifier as the design document's cost table names them. -/
inductive LenMod where
  | modHH
  | modH
  | modL
  | modLL
  | modZ
  | modT
  | modJ
deriving DecidableEq

/-- Reads the optional length modifier the cost table mentions (hh, h, ll,
l, z, t, j) off the front of the characters after flags/width/precision. -/
def readLenMod : List Char → Option LenMod × List Char
  | [] => (none, [])
  | 'h' :: r =>
    match r with
    | 'h' :: r2 => (some .modHH, r2)
    | _ => (some .modH, r)
  | 'l' :: r =>
    match r with
    | 'l' :: r2 => (some .modLL, r2)
    | _ => (some .modL, r)
  | 'z' :: r => (some .modZ, r)
  | 't' :: r => (some .modT, r)
  | 'j' :: r => (some .modJ, r)
  | c :: r => (none, c :: r)

theorem readLenMod_snd_length_le (l : List Char) :
    (readLenMod l).2.length ≤ l.length := by
  unfold readLenMod
  split <;> (try split) <;> simp <;> omega

/-- The integer conversion characters d, i, o, u, x, X. -/
def isIntConv (c : Char) : Bool :=
  c = 'd' || c = 'i' || c = 'o' || c = 'u' || c = 'x' || c = 'X'

/-- The floating conversion characters f, F, e, E, g, G. -/
def isFloatConv (c : Char) : Bool :=
  c = 'f' || c = 'F' || c = 'e' || c = 'E' || c = 'g' || c = 'G'

/-- Modelled from the spec (section 4.1 cost table, as claim C2 reads it):
the byte cost of one conversion given its length modifier and conversion
character.  sizeof(int) for d,i,o,u,x,X,c with no modifier and for hh- or
h-modified integer conversions; sizeof(long) for l-modified integer
conversions; sizeof(long long) for ll; sizeof(size_t) for z;
sizeof(ptrdiff_t) for t; sizeof(intmax_t) for j; sizeof(double) for
f,F,e,E,g,G; the pointer size for s, p and n; 0 for anything the table does
not list. -/
def specTableCost (sm : SizeModel) : Option LenMod → Char → Nat
  | some .modHH, c => if isIntConv c then sm.sizeof_int else 0
  | some .modH, c => if isIntConv c then sm.sizeof_int else 0
  | some .modL, c => if isIntConv c then sm.sizeof_long else 0
  | some .modLL, _ => sm.sizeof_long_long
  | some .modZ, _ => sm.sizeof_size_t
  | some .modT, _ => sm.sizeof_ptrdiff_t
  | some .modJ, _ => sm.sizeof_intmax_t
  | none, c =>
    if isIntConv c || c = 'c' then sm.sizeof_int
    else if isFloatConv c then sm.sizeof_double
    else if c = 's' then sm.sizeof_char_ptr
    else if c = 'p' then sm.sizeof_void_ptr
    else if c = 'n' then sm.sizeof_int_ptr
    else 0

/-- Modelled from the spec (claim C2): the sum over the conversion
specifications (percent-introduced, excluding the literal %%, after skipping
flags, width and .precision, then reading an optional length modifier and
the conversion character) of the table's byte costs. -/
def spec_table_size (sm : SizeModel) : List Char → Nat
  | [] => 0
  | c :: r =>
    if c = '%' ∧ r.head? ≠ some '%' then
      let s := readLenMod (skipFlagsWidthPrecision r)
      match s.2.head? with
      | some conv => specTableCost sm s.1 conv + spec_table_size sm (s.2.drop 1)
      | none => 0
    else if c = '%' ∧ r.head? = some '%' then
      spec_table_size sm (r.drop 1)
    else
      spec_table_size sm r
termination_by l => l.length
decreasing_by
  all_goals
    have h1 := readLenMod_snd_length_le (skipFlagsWidthPrecision r)
    have h2 := skipFlagsWidthPrecision_length_le r
    simp_all
    try omega

/-- The byte cost the source's outer switch attaches to a length modifier,
independently of the conversion character that follows it. -/
def lenModCost (sm : SizeModel) : LenMod → Nat
  | .modHH => sm.sizeof_int
  | .modH => sm.sizeof_int
  | .modLL => sm.sizeof_long_long
  | .modL => sm.sizeof_long
  | .modZ => sm.sizeof_size_t
  | .modT => sm.sizeof_ptrdiff_t
  | .modJ => sm.sizeof_intmax_t

/-- The amended cost table that the source actually implements: when a
length modifier is present its cost is charged regardless of the conversion
character (the character after the modifier is skipped unexamined); without
a modifier the conversion character is costed as in the table, unlisted
characters costing 0. -/
def amended_table_size (sm : SizeModel) : List Char → Nat
  | [] => 0
  | c :: r =>
    if c = '%' ∧ r.head? ≠ some '%' then
      let s := readLenMod (skipFlagsWidthPrecision r)
      match s.1 with
      | some m => lenModCost sm m + amended_table_size sm (s.2.drop 1)
      | none =>
        match s.2.head? with
        | some conv => specTableCost sm none conv + amended_table_size sm (s.2.drop 1)
        | none => 0
    else if c = '%' ∧ r.head? = some '%' then
      amended_table_size sm (r.drop 1)
    else
      amended_table_size sm r
termination_by l => l.length
decreasing_by
  all_goals
    have h1 := readLenMod_snd_length_le (skipFlagsWidthPrecision r)
    have h2 := skipFlagsWidthPrecision_length_le r
    simp_all
    try omega

/-- log_config.h: total size of the logging buffer pool in bytes. -/
def LOG_BUFFER_SIZE_BYTES : Nat := 1024

/-- log_config.h: maximum number of log messages in the queue. -/
def LOG_QUEUE_SIZE : Nat := 32

/-- log_msg.h: total footprint of a message, header plus argument bytes. -/
def LOG_MSG_SIZE (sm : SizeModel) (args_size : Nat) : Nat :=
  sm.sizeof_log_msg_t + args_size

/-- errno.h codes the sources negate and return. -/
def EINVAL : Int := 22

/-- errno.h: out of space. -/
def ENOSPC : Int := 28

/-- errno.h: input/output error. -/
def EIO : Int := 5

/-- The pool module's private state (log_pool.c lines 24-29): whether
xSemaphoreCreateMutexStatic has run (a NULL prv_log_pool_mutex is
mutexCreated = false), the watermark prv_log_buffer_used, and the
args_buffer_size header field each arena offset holds (the only arena byte
content log_pool_free reads back). -/
structure PoolState where
  mutexCreated : Bool
  used : Nat
  hdr : Nat → Nat

/-- log_pool_init (log_pool.c lines 35-46): creates the mutex and zeroes the
watermark; the arena bytes are left as they were. -/
def log_pool_init (s : PoolState) : PoolState :=
  { s with mutexCreated := true, used := 0 }

/-- log_pool_alloc (log_pool.c lines 48-99): NULL when the mutex was never
created or when the bump allocation would pass LOG_BUFFER_SIZE_BYTES;
otherwise carves the message at offset used, advances used by
LOG_MSG_SIZE(args_size), and initializes the header's args_buffer_size.
The returned handle is the message's arena offset.  Mutex acquisition from
thread context waits forever and so always succeeds in this sequential
model. -/
def log_pool_alloc (sm : SizeModel) (s : PoolState) (args_size : Nat) :
    Option Nat × PoolState :=
  let total_size := LOG_MSG_SIZE sm args_size
  if s.mutexCreated = false then (none, s)
  else if s.used + total_size > LOG_BUFFER_SIZE_BYTES then (none, s)
  else (some s.used,
    { s with
      used := s.used + total_size,
      hdr := fun o => if o = s.used then args_size else s.hdr o })

/-- log_pool_free (log_pool.c lines 101-138): tolerates NULL; does nothing
when the mutex was never created; rolls the watermark back by the message's
total size exactly when the message's end offset equals used, else is a
no-op. -/
def log_pool_free (sm : SizeModel) (s : PoolState) (msg : Option Nat) : PoolState :=
  match msg with
  | none => s
  | some h =>
    if s.mutexCreated = false then s
    else if h + LOG_MSG_SIZE sm (s.hdr h) = s.used then
      { s with used := s.used - LOG_MSG_SIZE sm (s.hdr h) }
    else s

/-- The queue module's state (log_queue.c lines 30-36): whether
xQueueCreateStatic has run, and the handles in FIFO order. -/
structure QueueState where
  created : Bool
  items : List Nat

/-- log_queue_send (log_queue.c lines 89-112): -EINVAL for a NULL message,
- EIO before log_queue_init, -ENOSPC when the queue is full (xQueueSend with
a zero timeout fails instead of blocking), else appends at the tail and
returns 0. -/
def log_queue_send (s : QueueState) (msg : Option Nat) : Int × QueueState :=
  match msg with
  | none => (-EINVAL, s)
  | some m =>
    if s.created = false then (- EIO, s)
    else if s.items.length ≥ LOG_QUEUE_SIZE then (-ENOSPC, s)
    else (0, { s with items := s.items ++ [m] })

/-- log_queue_deferred_message (log_core.c lines 42-83): the thread-context
submission path.  -EINVAL for NULL fmt_str; sizes the arguments with
log_format_calculate_buffer_size; -ENOSPC when log_pool_alloc returns NULL;
captures the arguments into the message's args buffer when the size is
positive, freeing the message and returning - EIO if the capture wrote 0
bytes; finally enqueues the message, returning log_queue_send's status.
none propagates a capture whose va_arg use was undefined behavior. -/
def log_queue_deferred_message (sm : SizeModel) (ps : PoolState)
    (qs : QueueState) (fmt_str : Option (List Char)) (args : List ArgTy) :
    Option (Int × PoolState × QueueState) :=
  match fmt_str with
  | none => some (-EINVAL, ps, qs)
  | some f =>
    let args_buffer_size := log_format_calculate_buffer_size sm (some f)
    let alloc := log_pool_alloc sm ps args_buffer_size
    match alloc.1 with
    | none => some (-ENOSPC, alloc.2, qs)
    | some msg =>
      if 0 < args_buffer_size then
        match log_format_copy_args_to_buffer sm false args_buffer_size
            (some f) args with
        | none => none
        | some (_, bytes_written) =>
          if bytes_written = 0 then
            some (- EIO, log_pool_free sm alloc.2 (some msg), qs)
          else
            let send := log_queue_send qs (some msg)
            some (send.1, alloc.2, send.2)
      else
        let send := log_queue_send qs (some msg)
        some (send.1, alloc.2, send.2)

/-- One registered backend (log_backend.h): an identity for the node and
whether its api.process_msg capability pointer is non-NULL. -/
structure LogBackend where
  id : Nat
  hasProcessMsg : Bool
deriving DecidableEq

/-- log_backend_register_backend (log_backend.c lines 35-59): -EINVAL for
NULL, else appends the backend at the tail of the singly-linked registry
(the walk finds the node whose next is NULL and links the new node there;
registry nodes are distinct records, as re-registering a node is not part
of the contract). -/
def log_backend_register_backend (l : List LogBackend)
    (backend : Option LogBackend) : Int × List LogBackend :=
  match backend with
  | none => (-EINVAL, l)
  | some b => (0, l ++ [b])

/-- An observable step of the worker's fan-out. -/
inductive ProcessEvent where
  | emitMsg (backendId : Nat)
  | freeMsg (handle : Nat)
deriving DecidableEq

/-- The registry walk of log_queue_process_immediate (log_queue.c lines
118-128): head to tail, skipping a backend whose process_msg is NULL,
invoking process_msg(backend, msg) otherwise. -/
def emitWalk : List LogBackend → List ProcessEvent
  | [] => []
  | b :: r =>
    if b.hasProcessMsg = false then emitWalk r
    else ProcessEvent.emitMsg b.id :: emitWalk r

/-- log_queue_process_immediate (log_queue.c lines 114-132): returns at once
for a NULL message; otherwise walks the registry emitting to each capable
backend and then frees the message back to the pool.  The result is the
ordered event trace and the pool state after the final free. -/
def log_queue_process_immediate (sm : SizeModel) (ps : PoolState)
    (msg : Option Nat) (backends : List LogBackend) :
    List ProcessEvent × PoolState :=
  match msg with
  | none => ([], ps)
  | some h =>
    (emitWalk backends ++ [ProcessEvent.freeMsg h], log_pool_free sm ps (some h))

/-- Modelled from the spec: section 6's abstract status codes.  The C
sources return negated errno values; NOT_INITIALIZED has no errno of its
own anywhere in the sources. -/
inductive SpecStatus where
  | OK
  | INVALID_ARGUMENT
  | NO_SPACE
  | IO_ERROR
  | NOT_INITIALIZED
deriving DecidableEq

/-- Modelled from the spec: the section 7 taxonomy read back over the codes
the sources return (0, -EINVAL, -ENOSPC, - EIO).  Any other value is read,
as charitably as possible for claim C6, as NOT_INITIALIZED. -/
def statusOfCode (code : Int) : SpecStatus :=
  if code = 0 then .OK
  else if code = -EINVAL then .INVALID_ARGUMENT
  else if code = -ENOSPC then .NO_SPACE
  else if code = - EIO then .IO_ERROR
  else .NOT_INITIALIZED

/-- A balanced call sequence against the pool, as claim C8 describes one:
failed allocations and NULL frees anywhere, and every successful allocation
matched by a free of its handle in LIFO order (the wrap constructor nests a
balanced sequence between an allocation and the free of that allocation). -/
inductive PoolBalanced (sm : SizeModel) : PoolState → PoolState → Prop where
  | nil (s : PoolState) : PoolBalanced sm s s
  | seq {s t u : PoolState} :
      PoolBalanced sm s t → PoolBalanced sm t u → PoolBalanced sm s u
  | allocFailed {s : PoolState} (n : Nat) :
      (log_pool_alloc sm s n).1 = none → PoolBalanced sm s (log_pool_alloc sm s n).2
  | freeNull {s : PoolState} : PoolBalanced sm s (log_pool_free sm s none)
  | wrap {s s1 s2 : PoolState} {n h : Nat} :
      log_pool_alloc sm s n = (some h, s1) → PoolBalanced sm s1 s2 →
      PoolBalanced sm s (log_pool_free sm s2 (some h))

/-- Pool states reachable from log_pool_init by any sequence of
log_pool_alloc and log_pool_free calls (any requested sizes, any handles,
so every handle an alloc ever returned is covered). -/
inductive PoolReach (sm : SizeModel) : PoolState → Prop where
  | init (s : PoolState) : PoolReach sm (log_pool_init s)
  | alloc {s : PoolState} (n : Nat) :
      PoolReach sm s → PoolReach sm (log_pool_alloc sm s n).2
  | free {s : PoolState} (m : Option Nat) :
      PoolReach sm s → PoolReach sm (log_pool_free sm s m)

/-- A pre-init pool: the mutex was never created. -/
def poolBeforeInit : PoolState :=
  { mutexCreated := false, used := 0, hdr := fun _ => 0 }

/-- A pool just after log_pool_init. -/
def poolAfterInit : PoolState := log_pool_init poolBeforeInit

/-- A pool whose watermark sits at the arena's end: any allocation request
must fail. -/
def poolAtCapacity : PoolState :=
  { mutexCreated := true, used := LOG_BUFFER_SIZE_BYTES, hdr := fun _ => 0 }

/-- A pre-init queue: xQueueCreateStatic never ran. -/
def queueBeforeInit : QueueState := { created := false, items := [] }

/-- A queue just after log_queue_init, empty. -/
def queueAfterInit : QueueState := { created := true, items := [] }


theorem convSpec_snd_eq_readLenMod (l : List Char) :
    (convSpec l).2 = (readLenMod l).2.drop 1 := by
  unfold convSpec readLenMod
  split <;> (try split) <;> simp_all <;> split_ifs <;> simp_all

theorem convSpec_cost_eq_table (sm : SizeModel) (l : List Char) :
    (match (convSpec l).1 with
     | some t => t.size sm
     | none => 0)
    = (match (readLenMod l).1 with
       | some m => lenModCost sm m
       | none =>
         match (readLenMod l).2.head? with
         | some conv => specTableCost sm none conv
         | none => 0) := by
  cases l with
  | nil => simp [convSpec, readLenMod]
  | cons c r =>
    by_cases h1 : c = 'h'
    · subst h1
      cases r with
      | nil => simp [convSpec, readLenMod, lenModCost, ArgTy.size]
      | cons c2 r2 =>
        by_cases h2 : c2 = 'h'
        · subst h2; simp [convSpec, readLenMod, lenModCost, ArgTy.size]
        · simp [convSpec, readLenMod, h2, lenModCost, ArgTy.size]
    · by_cases hl : c = 'l'
      · subst hl
        cases r with
        | nil => simp [convSpec, readLenMod, lenModCost, ArgTy.size]
        | cons c2 r2 =>
          by_cases h2 : c2 = 'l'
          · subst h2; simp [convSpec, readLenMod, lenModCost, ArgTy.size]
          · simp [convSpec, readLenMod, h2, lenModCost, ArgTy.size]
      · by_cases hz : c = 'z'
        · subst hz; simp [convSpec, readLenMod, lenModCost, ArgTy.size]
        · by_cases ht : c = 't'
          · subst ht; simp [convSpec, readLenMod, lenModCost, ArgTy.size]
          · by_cases hj : c = 'j'
            · subst hj; simp [convSpec, readLenMod, lenModCost, ArgTy.size]
            · simp [convSpec, readLenMod, h1, hl, hz, ht, hj, specTableCost,
                isIntConv, isFloatConv, ArgTy.size]
              split_ifs <;> simp_all [ArgTy.size]

theorem calcLoop_eq_amended (sm : SizeModel) (f : List Char) :
    calcLoop sm f = amended_table_size sm f := by
  induction f using calcLoop.induct sm with
  | case1 => simp [calcLoop, amended_table_size]
  | case2 c r hcond s ih =>
    rw [calcLoop, amended_table_size]
    rw [if_pos hcond, if_pos hcond]
    simp only []
    rw [convSpec_cost_eq_table sm (skipFlagsWidthPrecision r)]
    rw [convSpec_snd_eq_readLenMod] at ih ⊢
    cases hm : (readLenMod (skipFlagsWidthPrecision r)).1 with
    | some m => simp only [hm]; rw [ih]
    | none =>
      simp only [hm]
      cases hh : (readLenMod (skipFlagsWidthPrecision r)).2.head? with
      | some conv => simp only [hh]; rw [ih]
      | none =>
        simp only [hh]
        have h2 : (readLenMod (skipFlagsWidthPrecision r)).2 = [] :=
          List.head?_eq_none_iff.mp hh
        rw [h2] at ih ⊢
        simp [calcLoop] at ih ⊢
  | case3 c r hnot hcond ih =>
    rw [calcLoop, amended_table_size]
    rw [if_neg hnot, if_neg hnot, if_pos hcond, if_pos hcond]
    exact ih
  | case4 c r hnot1 hnot2 ih =>
    rw [calcLoop, amended_table_size]
    rw [if_neg hnot1, if_neg hnot1, if_neg hnot2, if_neg hnot2]
    exact ih

theorem log_pool_alloc_none_of_fst_none (sm : SizeModel) (s : PoolState) (n : Nat)
    (h : (log_pool_alloc sm s n).1 = none) : log_pool_alloc sm s n = (none, s) := by
  unfold log_pool_alloc at h ⊢
  simp only [] at h ⊢
  split
  · rfl
  · split
    · rfl
    · rename_i hm hfull
      simp only [if_neg hm, if_neg hfull] at h
      simp at h

theorem log_pool_alloc_some_inv (sm : SizeModel) (s : PoolState) (n : Nat)
    (msg : Nat) (s1 : PoolState) (h : log_pool_alloc sm s n = (some msg, s1)) :
    s.mutexCreated = true ∧ msg = s.used ∧
    s.used + LOG_MSG_SIZE sm n ≤ LOG_BUFFER_SIZE_BYTES ∧
    s1.mutexCreated = true ∧ s1.used = s.used + LOG_MSG_SIZE sm n ∧
    s1.hdr s.used = n ∧ (∀ o, o ≠ s.used → s1.hdr o = s.hdr o) := by
  unfold log_pool_alloc at h
  simp only [] at h
  split at h
  · simp at h
  · split at h
    · simp at h
    · rename_i hm hfull
      simp only [Bool.not_eq_false] at hm
      simp only [Prod.mk.injEq, Option.some.injEq] at h
      obtain ⟨hmsg, hs1⟩ := h
      subst hmsg
      subst hs1
      refine ⟨hm, rfl, by omega, by simp [hm], by simp, by simp, ?_⟩
      intro o ho
      simp [ho]


theorem poolBalanced_invariant (sm : SizeModel) (hpos : 0 < sm.sizeof_log_msg_t)
    {s t : PoolState} (hb : PoolBalanced sm s t) :
    t.used = s.used ∧ t.mutexCreated = s.mutexCreated ∧
    ∀ o, o < s.used → t.hdr o = s.hdr o := by
  induction hb with
  | nil s => exact ⟨rfl, rfl, fun o _ => rfl⟩
  | seq h1 h2 ih1 ih2 =>
    obtain ⟨u1, m1, hd1⟩ := ih1
    obtain ⟨u2, m2, hd2⟩ := ih2
    refine ⟨u2.trans u1, m2.trans m1, fun o ho => ?_⟩
    rw [hd2 o (by omega), hd1 o ho]
  | allocFailed n hfail =>
    rw [log_pool_alloc_none_of_fst_none sm _ n hfail]
    exact ⟨rfl, rfl, fun o _ => rfl⟩
  | freeNull => exact ⟨rfl, rfl, fun o _ => rfl⟩
  | wrap halloc hbal ih =>
    rename_i s s1 s2 n hdl
    obtain ⟨hmx, hh, hbound, hm1, hu1, hhdr1, hhdro⟩ :=
      log_pool_alloc_some_inv sm s n hdl s1 halloc
    obtain ⟨u2, m2, hd2⟩ := ih
    subst hh
    have htot : 0 < LOG_MSG_SIZE sm n := by
      unfold LOG_MSG_SIZE; omega
    have hhdr2 : s2.hdr s.used = n := by
      rw [hd2 s.used (by omega), hhdr1]
    have hmx2 : s2.mutexCreated = true := by rw [m2, hm1]
    unfold log_pool_free
    rw [hmx2]
    simp only [Bool.true_eq_false, if_false]
    rw [hhdr2]
    have hcond : s.used + LOG_MSG_SIZE sm n = s2.used := by omega
    rw [if_pos hcond]
    refine ⟨by simp; omega, by simp [hmx2, hmx], fun o ho => ?_⟩
    simp only []
    rw [hd2 o (by omega), hhdro o (by omega)]

theorem emitWalk_eq_filter_map (l : List LogBackend) :
    emitWalk l
      = (l.filter fun b => b.hasProcessMsg).map fun b => ProcessEvent.emitMsg b.id := by
  induction l with
  | nil => simp [emitWalk]
  | cons b r ih =>
    simp only [emitWalk]
    split
    · simp_all [List.filter_cons]
    · simp_all [List.filter_cons]


theorem copyLoop_writes_bound (sm : SizeModel) (cap : Nat) :
    ∀ f args bw, ∀ ws n, copyLoop sm cap f args bw = some (ws, n) →
    ∀ w ∈ ws, w.offset < cap ∧ ∃ t : ArgTy, w.size = t.size sm := by
  intro f args bw
  induction f, args, bw using copyLoop.induct sm cap with
  | case1 args bw =>
    intro ws n h w hw
    simp [copyLoop] at h
    obtain ⟨rfl, rfl⟩ := h
    simp at hw
  | case2 c r args bw hlt hcond s t hs htake =>
    intro ws n h w hw
    rw [copyLoop] at h
    rw [if_pos hlt, if_pos hcond] at h
    simp only [] at h
    rw [hs] at h
    simp only [htake] at h
    exact Option.noConfusion h
  | case3 c r args bw hlt hcond s t hs args2 htake ih =>
    intro ws n h w hw
    rw [copyLoop] at h
    rw [if_pos hlt, if_pos hcond] at h
    simp only [] at h
    rw [hs] at h
    simp only [htake] at h
    rw [Option.map_eq_some'] at h
    obtain ⟨p, hp, heq⟩ := h
    obtain ⟨hws, hn⟩ := Prod.mk.injEq _ _ _ _ ▸ heq
    subst hws
    rcases List.mem_cons.mp hw with hw1 | hw2
    · subst hw1
      exact ⟨hlt, ⟨t, rfl⟩⟩
    · exact ih p.1 p.2 (by rw [hp]) w hw2
  | case4 c r args bw hlt hcond s hs ih =>
    intro ws n h w hw
    rw [copyLoop] at h
    rw [if_pos hlt, if_pos hcond] at h
    simp only [] at h
    rw [hs] at h
    exact ih ws n h w hw
  | case5 c r args bw hlt hnot hcond ih =>
    intro ws n h w hw
    rw [copyLoop] at h
    rw [if_pos hlt, if_neg hnot, if_pos hcond] at h
    exact ih ws n h w hw
  | case6 c r args bw hlt hnot1 hnot2 ih =>
    intro ws n h w hw
    rw [copyLoop] at h
    rw [if_pos hlt, if_neg hnot1, if_neg hnot2] at h
    exact ih ws n h w hw
  | case7 c r args bw hlt =>
    intro ws n h w hw
    rw [copyLoop] at h
    rw [if_neg hlt] at h
    simp at h
    obtain ⟨rfl, rfl⟩ := h
    simp at hw


theorem copyLoop_matching_some (sm : SizeModel) (cap : Nat) :
    ∀ f args bw, args = argTypes f →
    ∃ ws n, copyLoop sm cap f args bw = some (ws, n) ∧ bw ≤ n := by
  intro f args bw
  induction f, args, bw using copyLoop.induct sm cap with
  | case1 args bw =>
    intro _
    exact ⟨[], bw, by simp [copyLoop], le_refl bw⟩
  | case2 c r args bw hlt hcond s t hs htake =>
    intro hargs
    rw [argTypes, if_pos hcond] at hargs
    simp only [] at hargs
    rw [hs] at hargs
    simp only [] at hargs
    rw [hargs] at htake
    simp [takeArg] at htake
  | case3 c r args bw hlt hcond s t hs args2 htake ih =>
    intro hargs
    rw [argTypes, if_pos hcond] at hargs
    simp only [] at hargs
    rw [hs] at hargs
    simp only [] at hargs
    have hargs2 : args2 = argTypes s.2 := by
      rw [hargs] at htake
      simpa [takeArg] using htake.symm
    obtain ⟨ws, n, heq, hle⟩ := ih hargs2
    refine ⟨⟨bw, t.size sm⟩ :: ws, n, ?_, by omega⟩
    rw [copyLoop]
    rw [if_pos hlt, if_pos hcond]
    simp only []
    rw [hs]
    simp only [htake]
    rw [heq]
    rfl
  | case4 c r args bw hlt hcond s hs ih =>
    intro hargs
    rw [argTypes, if_pos hcond] at hargs
    simp only [] at hargs
    rw [hs] at hargs
    simp only [] at hargs
    obtain ⟨ws, n, heq, hle⟩ := ih hargs
    refine ⟨ws, n, ?_, hle⟩
    rw [copyLoop]
    rw [if_pos hlt, if_pos hcond]
    simp only []
    rw [hs]
    exact heq
  | case5 c r args bw hlt hnot hcond ih =>
    intro hargs
    rw [argTypes, if_neg hnot, if_pos hcond] at hargs
    obtain ⟨ws, n, heq, hle⟩ := ih hargs
    refine ⟨ws, n, ?_, hle⟩
    rw [copyLoop]
    rw [if_pos hlt, if_neg hnot, if_pos hcond]
    exact heq
  | case6 c r args bw hlt hnot1 hnot2 ih =>
    intro hargs
    rw [argTypes, if_neg hnot1, if_neg hnot2] at hargs
    obtain ⟨ws, n, heq, hle⟩ := ih hargs
    refine ⟨ws, n, ?_, hle⟩
    rw [copyLoop]
    rw [if_pos hlt, if_neg hnot1, if_neg hnot2]
    exact heq
  | case7 c r args bw hlt =>
    intro _
    refine ⟨[], bw, ?_, le_refl bw⟩
    rw [copyLoop]
    rw [if_neg hlt]


theorem copyLoop_matching_exact (sm : SizeModel) (cap : Nat) :
    ∀ f bw, bw + calcLoop sm f ≤ cap →
    ∃ ws, copyLoop sm cap f (argTypes f) bw = some (ws, bw + calcLoop sm f) := by
  intro f
  induction f using calcLoop.induct sm with
  | case1 =>
    intro bw _
    exact ⟨[], by simp [copyLoop, calcLoop, argTypes]⟩
  | case2 c r hcond s ih =>
    have ih2 : ∀ bw2 : Nat,
        bw2 + calcLoop sm (convSpec (skipFlagsWidthPrecision r)).2 ≤ cap →
        ∃ ws, copyLoop sm cap (convSpec (skipFlagsWidthPrecision r)).2
            (argTypes (convSpec (skipFlagsWidthPrecision r)).2) bw2
          = some (ws, bw2 + calcLoop sm (convSpec (skipFlagsWidthPrecision r)).2) := ih
    intro bw hcap
    rw [calcLoop, if_pos hcond] at hcap ⊢
    simp only [] at hcap ⊢
    by_cases hlt : bw < cap
    · cases hs : (convSpec (skipFlagsWidthPrecision r)).1 with
      | some t =>
        rw [hs] at hcap
        simp only [] at hcap ⊢
        have hargs : argTypes (c :: r)
            = t :: argTypes (convSpec (skipFlagsWidthPrecision r)).2 := by
          rw [argTypes, if_pos hcond]
          simp only []
          rw [hs]
        have htk : takeArg t
            (t :: argTypes (convSpec (skipFlagsWidthPrecision r)).2)
            = some (argTypes (convSpec (skipFlagsWidthPrecision r)).2) := by
          simp [takeArg]
        obtain ⟨ws, heq⟩ := ih2 (bw + t.size sm) (by omega)
        refine ⟨⟨bw, t.size sm⟩ :: ws, ?_⟩
        rw [hargs, copyLoop]
        rw [if_pos hlt, if_pos hcond]
        simp only []
        rw [hs]
        simp only [htk]
        rw [heq]
        simp only [Option.map_some', Option.some.injEq, Prod.mk.injEq]
        exact ⟨trivial, by omega⟩
      | none =>
        rw [hs] at hcap
        simp only [] at hcap ⊢
        have hargs : argTypes (c :: r)
            = argTypes (convSpec (skipFlagsWidthPrecision r)).2 := by
          rw [argTypes, if_pos hcond]
          simp only []
          rw [hs]
        obtain ⟨ws, heq⟩ := ih2 bw (by omega)
        refine ⟨ws, ?_⟩
        rw [hargs, copyLoop]
        rw [if_pos hlt, if_pos hcond]
        simp only []
        rw [hs]
        simp only []
        rw [heq]
        simp
    · have hc0 : (match (convSpec (skipFlagsWidthPrecision r)).1 with
          | some t => t.size sm
          | none => 0) + calcLoop sm (convSpec (skipFlagsWidthPrecision r)).2 = 0 := by
        omega
      refine ⟨[], ?_⟩
      rw [copyLoop, if_neg hlt, hc0]
      simp
  | case3 c r hnot hcond ih =>
    intro bw hcap
    rw [calcLoop, if_neg hnot, if_pos hcond] at hcap ⊢
    by_cases hlt : bw < cap
    · obtain ⟨ws, heq⟩ := ih bw hcap
      refine ⟨ws, ?_⟩
      have hargs : argTypes (c :: r) = argTypes (r.drop 1) := by
        rw [argTypes, if_neg hnot, if_pos hcond]
      rw [hargs, copyLoop, if_pos hlt, if_neg hnot, if_pos hcond]
      exact heq
    · have hc0 : calcLoop sm (r.drop 1) = 0 := by omega
      refine ⟨[], ?_⟩
      rw [copyLoop, if_neg hlt, hc0]
      simp
  | case4 c r hnot1 hnot2 ih =>
    intro bw hcap
    rw [calcLoop, if_neg hnot1, if_neg hnot2] at hcap ⊢
    by_cases hlt : bw < cap
    · obtain ⟨ws, heq⟩ := ih bw hcap
      refine ⟨ws, ?_⟩
      have hargs : argTypes (c :: r) = argTypes r := by
        rw [argTypes, if_neg hnot1, if_neg hnot2]
      rw [hargs, copyLoop, if_pos hlt, if_neg hnot1, if_neg hnot2]
      exact heq
    · have hc0 : calcLoop sm r = 0 := by omega
      refine ⟨[], ?_⟩
      rw [copyLoop, if_neg hlt, hc0]
      simp


theorem copyLoop_matching_zero_iff (sm : SizeModel) (cap : Nat) (hcap : 0 < cap) :
    ∀ f ws n, copyLoop sm cap f (argTypes f) 0 = some (ws, n) →
    (n = 0 ↔ calcLoop sm f = 0) := by
  intro f
  induction f using calcLoop.induct sm with
  | case1 =>
    intro ws n h
    simp [copyLoop] at h
    simp [calcLoop, h.2]
  | case2 c r hcond s ih =>
    have ih2 : ∀ ws2 (n2 : Nat),
        copyLoop sm cap (convSpec (skipFlagsWidthPrecision r)).2
            (argTypes (convSpec (skipFlagsWidthPrecision r)).2) 0 = some (ws2, n2) →
        (n2 = 0 ↔ calcLoop sm (convSpec (skipFlagsWidthPrecision r)).2 = 0) := ih
    intro ws n h
    rw [calcLoop, if_pos hcond]
    simp only []
    cases hs : (convSpec (skipFlagsWidthPrecision r)).1 with
    | some t =>
      simp only []
      have hargs : argTypes (c :: r)
          = t :: argTypes (convSpec (skipFlagsWidthPrecision r)).2 := by
        rw [argTypes, if_pos hcond]
        simp only []
        rw [hs]
      have htk : takeArg t
          (t :: argTypes (convSpec (skipFlagsWidthPrecision r)).2)
          = some (argTypes (convSpec (skipFlagsWidthPrecision r)).2) := by
        simp [takeArg]
      rw [hargs, copyLoop, if_pos hcap, if_pos hcond] at h
      simp only [] at h
      rw [hs] at h
      simp only [htk] at h
      rw [Option.map_eq_some'] at h
      obtain ⟨p, hp, heq2⟩ := h
      have hn : n = p.2 := by
        have := congrArg Prod.snd heq2
        simpa using this.symm
      obtain ⟨ws2, n2, heq3, hle⟩ := copyLoop_matching_some sm cap
        (convSpec (skipFlagsWidthPrecision r)).2
        (argTypes (convSpec (skipFlagsWidthPrecision r)).2) (0 + t.size sm) rfl
      rw [hp] at heq3
      have hp2 : p.2 = n2 := by
        have := congrArg Prod.snd (Option.some.inj heq3)
        simpa using this
      by_cases hsz : t.size sm = 0
      · have hp0 : copyLoop sm cap (convSpec (skipFlagsWidthPrecision r)).2
            (argTypes (convSpec (skipFlagsWidthPrecision r)).2) 0 = some p := by
          rw [← hp, hsz]
        have hiff := ih2 p.1 p.2 (by rw [hp0])
        rw [hn, hsz]
        simpa using hiff
      · constructor
        · intro h0
          omega
        · intro hcal
          omega
    | none =>
      simp only []
      have hargs : argTypes (c :: r)
          = argTypes (convSpec (skipFlagsWidthPrecision r)).2 := by
        rw [argTypes, if_pos hcond]
        simp only []
        rw [hs]
      rw [hargs, copyLoop, if_pos hcap, if_pos hcond] at h
      simp only [] at h
      rw [hs] at h
      simp only [] at h
      simpa using ih2 ws n h
  | case3 c r hnot hcond ih =>
    intro ws n h
    rw [calcLoop, if_neg hnot, if_pos hcond]
    have hargs : argTypes (c :: r) = argTypes (r.drop 1) := by
      rw [argTypes, if_neg hnot, if_pos hcond]
    rw [hargs, copyLoop, if_pos hcap, if_neg hnot, if_pos hcond] at h
    exact ih ws n h
  | case4 c r hnot1 hnot2 ih =>
    intro ws n h
    rw [calcLoop, if_neg hnot1, if_neg hnot2]
    have hargs : argTypes (c :: r) = argTypes r := by
      rw [argTypes, if_neg hnot1, if_neg hnot2]
    rw [hargs, copyLoop, if_pos hcap, if_neg hnot1, if_neg hnot2] at h
    exact ih ws n h


theorem argTy_size_le_max (sm : SizeModel) (t : ArgTy) :
    t.size sm ≤ maxArgSize sm := by
  have hl : ∀ a b : Nat, a ≤ max a b := Nat.le_max_left
  have hr : ∀ a b c : Nat, a ≤ b → a ≤ max c b :=
    fun a b c h => le_trans h (Nat.le_max_right c b)
  cases t
  · exact hl _ _
  · exact hr _ _ _ (hl _ _)
  · exact hr _ _ _ (hr _ _ _ (hl _ _))
  · exact hr _ _ _ (hr _ _ _ (hr _ _ _ (hl _ _)))
  · exact hr _ _ _ (hr _ _ _ (hr _ _ _ (hr _ _ _ (hl _ _))))
  · exact hr _ _ _ (hr _ _ _ (hr _ _ _ (hr _ _ _ (hr _ _ _ (hl _ _)))))
  · exact hr _ _ _ (hr _ _ _ (hr _ _ _ (hr _ _ _ (hr _ _ _ (hr _ _ _ (hl _ _))))))
  · exact hr _ _ _ (hr _ _ _ (hr _ _ _ (hr _ _ _ (hr _ _ _ (hr _ _ _ (hr _ _ _
      (hl _ _)))))))
  · exact hr _ _ _ (hr _ _ _ (hr _ _ _ (hr _ _ _ (hr _ _ _ (hr _ _ _ (hr _ _ _
      (hr _ _ _ (hl _ _))))))))
  · exact hr _ _ _ (hr _ _ _ (hr _ _ _ (hr _ _ _ (hr _ _ _ (hr _ _ _ (hr _ _ _
      (hr _ _ _ (Nat.le_max_right _ _))))))))

/-- C9: for every dequeued message and every state of the sink registry,
log_queue_process_immediate invokes the process_msg capability of every
registered backend whose capability is non-null, in registration order (head
to tail), exactly once per backend, skipping backends with a null
capability, and frees the message back to the pool only after all backends
ran: its event trace is exactly the filtered registry mapped to emit events,
followed by the single free. -/
theorem process_immediate_fanout (sm : SizeModel) (ps : PoolState) (h : Nat)
    (backends : List LogBackend) :
    log_queue_process_immediate sm ps (some h) backends
      = ((backends.filter fun b => b.hasProcessMsg).map
          (fun b => ProcessEvent.emitMsg b.id) ++ [ProcessEvent.freeMsg h],
        log_pool_free sm ps (some h)) := by
  unfold log_queue_process_immediate
  rw [emitWalk_eq_filter_map]

/-- C7: when the pool is exhausted (the requested total size would pass
LOG_BUFFER_SIZE_BYTES beyond the current watermark), log_pool_alloc returns
NULL and the state - watermark and arena headers - is exactly unchanged. -/
theorem pool_alloc_exhausted_pure (sm : SizeModel) (s : PoolState) (n : Nat)
    (hm : s.mutexCreated = true)
    (hfull : LOG_BUFFER_SIZE_BYTES < s.used + LOG_MSG_SIZE sm n) :
    log_pool_alloc sm s n = (none, s) := by
  unfold log_pool_alloc
  simp only []
  rw [if_neg (by simp [hm]), if_pos hfull]

/-- C7 witness: a full pool rejects an allocation of 0 argument bytes and is
left untouched. -/
theorem pool_alloc_exhausted_pure_witness :
    log_pool_alloc ilp32 poolAtCapacity 0 = (none, poolAtCapacity) :=
  pool_alloc_exhausted_pure ilp32 poolAtCapacity 0 rfl (by decide)

/-- C10: in every pool state reachable from log_pool_init by any sequence
of log_pool_alloc and log_pool_free calls, the watermark satisfies
0 <= used <= LOG_BUFFER_SIZE_BYTES. -/
theorem pool_used_bounded (sm : SizeModel) (s : PoolState) (hr : PoolReach sm s) :
    0 ≤ s.used ∧ s.used ≤ LOG_BUFFER_SIZE_BYTES := by
  induction hr with
  | init s => simp [log_pool_init]
  | alloc n hr ih =>
    refine ⟨Nat.zero_le _, ?_⟩
    unfold log_pool_alloc
    simp only []
    split
    · exact ih.2
    · split
      · exact ih.2
      · rename_i h1 h2
        simp only []
        omega
  | free m hr ih =>
    refine ⟨Nat.zero_le _, ?_⟩
    unfold log_pool_free
    cases m with
    | none => exact ih.2
    | some hd =>
      simp only []
      split
      · exact ih.2
      · split
        · simp only []
          omega
        · exact ih.2

/-- C10 witness: the bound holds at the freshly initialized pool. -/
theorem pool_used_bounded_witness :
    0 ≤ poolAfterInit.used ∧ poolAfterInit.used ≤ LOG_BUFFER_SIZE_BYTES :=
  pool_used_bounded ilp32 poolAfterInit (PoolReach.init poolBeforeInit)

/-- C8: after any balanced sequence of log_pool_alloc / log_pool_free calls
in which every successful allocation is freed in LIFO order, the watermark
returns to 0 (starting from a pool whose watermark is 0, as after init). -/
theorem pool_conservation_lifo (sm : SizeModel) (s t : PoolState)
    (hpos : 0 < sm.sizeof_log_msg_t) (h0 : s.used = 0)
    (hb : PoolBalanced sm s t) : t.used = 0 := by
  have h := poolBalanced_invariant sm hpos hb
  omega

/-- C8 witness: allocate one 4-byte-args message from the initialized pool
and free it again; the theorem instantiated at that balanced pair gives
used = 0 afterwards. -/
theorem pool_conservation_lifo_witness :
    (log_pool_free ilp32 (log_pool_alloc ilp32 poolAfterInit 4).2 (some 0)).used = 0 :=
  pool_conservation_lifo ilp32 poolAfterInit _ (by decide) rfl
    (PoolBalanced.wrap (n := 4) rfl (PoolBalanced.nil _))

/-- C6 counterexample: a submission arriving before init (mutex and queue
never created) comes back with -ENOSPC, which the design document's taxonomy
reads as NO_SPACE, not as NOT_INITIALIZED; no NOT_INITIALIZED status is ever
returned. -/
theorem before_init_status_counterexample :
    log_queue_deferred_message ilp32 poolBeforeInit queueBeforeInit (some ['x']) []
      = some (-ENOSPC, poolBeforeInit, queueBeforeInit) ∧
    statusOfCode (-ENOSPC) = SpecStatus.NO_SPACE ∧
    SpecStatus.NO_SPACE ≠ SpecStatus.NOT_INITIALIZED := by
  refine ⟨?_, by decide, by decide⟩
  simp +decide [log_queue_deferred_message, log_format_calculate_buffer_size,
    calcLoop, log_pool_alloc, poolBeforeInit, queueBeforeInit]

/-- C6 amended: every thread-context submission that arrives while the pool
mutex was never created (that is, before init) fails with -ENOSPC - the
alloc-failure status, the same code as pool exhaustion - leaving pool and
queue untouched. -/
theorem before_init_returns_no_space (sm : SizeModel) (ps : PoolState)
    (qs : QueueState) (f : List Char) (args : List ArgTy)
    (h : ps.mutexCreated = false) :
    log_queue_deferred_message sm ps qs (some f) args = some (-ENOSPC, ps, qs) := by
  have halloc : log_pool_alloc sm ps
      (log_format_calculate_buffer_size sm (some f)) = (none, ps) := by
    unfold log_pool_alloc
    simp only []
    rw [if_pos h]
  unfold log_queue_deferred_message
  simp only []
  rw [halloc]

/-- C6 amended witness: the concrete pre-init submission. -/
theorem before_init_returns_no_space_witness :
    log_queue_deferred_message ilp32 poolBeforeInit queueBeforeInit (some ['x']) []
      = some (-ENOSPC, poolBeforeInit, queueBeforeInit) :=
  before_init_returns_no_space ilp32 poolBeforeInit queueBeforeInit ['x'] [] rfl

/-- C2 counterexample: the table in the claim assigns an l-modified
non-integer conversion no cost (and reads percent-l-f as a double), but the
source charges sizeof(long) for any l-modified specification: on the 32-bit
model the format percent-l-f is sized at 4 by the code and 0 by the claim's
table. -/
theorem calc_buffer_size_table_counterexample :
    log_format_calculate_buffer_size ilp32 (some ['%','l','f']) = 4 ∧
    spec_table_size ilp32 ['%','l','f'] = 0 ∧
    log_format_calculate_buffer_size ilp32 (some ['%','l','f'])
      ≠ spec_table_size ilp32 ['%','l','f'] := by
  have h1 : log_format_calculate_buffer_size ilp32 (some ['%','l','f']) = 4 := by
    simp +decide [log_format_calculate_buffer_size, calcLoop, convSpec,
      skipFlagsWidthPrecision, skipPrecisionPart, skipDigits, skipFlags,
      isFlagChar, isDigitChar, ArgTy.size, ilp32]
  have h2 : spec_table_size ilp32 ['%','l','f'] = 0 := by
    simp +decide [spec_table_size, readLenMod, specTableCost,
      skipFlagsWidthPrecision, skipPrecisionPart, skipDigits, skipFlags,
      isFlagChar, isDigitChar, isIntConv, ilp32]
  refine ⟨h1, h2, ?_⟩
  rw [h1, h2]
  decide

/-- C2 amended: log_format_calculate_buffer_size is the sum over conversion
specifications of the amended table, in which a length modifier alone fixes
the cost (hh,h: sizeof(int); l: sizeof(long); ll: sizeof(long long); z, t,
j: their types) regardless of the conversion character after it, and a
modifier-less specification is costed by its conversion character as the
claim's table says, unlisted characters costing 0. -/
theorem calc_buffer_size_by_modifier (sm : SizeModel) (f : List Char) :
    log_format_calculate_buffer_size sm (some f) = amended_table_size sm f :=
  calcLoop_eq_amended sm f


/-- C1: size agreement - for every non-null format string and an argument
list whose types match it, log_format_copy_args_to_buffer, given a
destination capacity of exactly log_format_calculate_buffer_size of the same
format, succeeds and writes (and returns) exactly that many bytes. -/
theorem size_agreement (sm : SizeModel) (f : List Char) (args : List ArgTy)
    (h : args = argTypes f) :
    ∃ ws, log_format_copy_args_to_buffer sm false
        (log_format_calculate_buffer_size sm (some f)) (some f) args
      = some (ws, log_format_calculate_buffer_size sm (some f)) := by
  subst h
  by_cases h0 : calcLoop sm f = 0
  · refine ⟨[], ?_⟩
    simp [log_format_copy_args_to_buffer, log_format_calculate_buffer_size, h0]
  · obtain ⟨ws, heq⟩ := copyLoop_matching_exact sm (calcLoop sm f) f 0 (by omega)
    refine ⟨ws, ?_⟩
    simp only [log_format_copy_args_to_buffer, log_format_calculate_buffer_size]
    rw [if_neg (by simp [h0])]
    simpa using heq

/-- C1 witness: the format x=%d y=%s sized and captured at the 32-bit model
with a matching (int, char pointer) argument list. -/
theorem size_agreement_witness :
    ∃ ws, log_format_copy_args_to_buffer ilp32 false
        (log_format_calculate_buffer_size ilp32
          (some ['x','=','%','d',' ','y','=','%','s']))
        (some ['x','=','%','d',' ','y','=','%','s'])
        [ArgTy.argInt, ArgTy.argCharPtr]
      = some (ws, log_format_calculate_buffer_size ilp32
          (some ['x','=','%','d',' ','y','=','%','s'])) :=
  size_agreement ilp32 ['x','=','%','d',' ','y','=','%','s']
    [ArgTy.argInt, ArgTy.argCharPtr]
    (by simp +decide [argTypes, convSpec, skipFlagsWidthPrecision,
      skipPrecisionPart, skipDigits, skipFlags, isFlagChar, isDigitChar])

/-- C4 counterexample: called with dst_capacity 1 on format percent-d, the
capture loop writes the whole 4-byte int argument at offset 0, so bytes at
offsets 1, 2, 3 - at or beyond the capacity - are written: the write event
of width 4 starting at 0 overruns capacity 1. -/
theorem copy_args_overrun_counterexample :
    log_format_copy_args_to_buffer ilp32 false 1 (some ['%','d']) [ArgTy.argInt]
      = some ([⟨0, 4⟩], 4) ∧
    (1 : Nat) < 0 + 4 := by
  constructor
  · simp +decide [log_format_copy_args_to_buffer, copyLoop, convSpec, takeArg,
      skipFlagsWidthPrecision, skipPrecisionPart, skipDigits, skipFlags,
      isFlagChar, isDigitChar, ArgTy.size, ilp32]
  · decide

/-- C4 amended: the capture loop re-checks the capacity only between
conversions - no conversion begins writing at an offset at or beyond
dst_capacity, and every write is one captured type wide (at most maxArgSize
bytes), so a final conversion that starts below the capacity may run past it
by at most maxArgSize - 1 bytes. -/
theorem copy_args_write_bounds (sm : SizeModel) (bufferIsNull : Bool)
    (cap : Nat) (fmt_str : Option (List Char)) (args : List ArgTy)
    (ws : List WriteEvent) (n : Nat) (w : WriteEvent)
    (hrun : log_format_copy_args_to_buffer sm bufferIsNull cap fmt_str args
      = some (ws, n))
    (hw : w ∈ ws) :
    w.offset < cap ∧ w.size ≤ maxArgSize sm := by
  unfold log_format_copy_args_to_buffer at hrun
  cases fmt_str with
  | none =>
    simp at hrun
    obtain ⟨h1, _⟩ := hrun
    subst h1
    simp at hw
  | some f =>
    simp only [] at hrun
    by_cases hc : (bufferIsNull : Bool) = true ∨ cap = 0
    · rw [if_pos (by simpa using hc)] at hrun
      simp at hrun
      obtain ⟨h1, _⟩ := hrun
      subst h1
      simp at hw
    · rw [if_neg (by simpa using hc)] at hrun
      obtain ⟨hoff, t, hsz⟩ :=
        copyLoop_writes_bound sm cap f args 0 ws n hrun w hw
      exact ⟨hoff, hsz ▸ argTy_size_le_max sm t⟩

/-- C4 amended witness: at the counterexample input the single write starts
at offset 0 below capacity 1 and is at most maxArgSize wide. -/
theorem copy_args_write_bounds_witness :
    (0 : Nat) < 1 ∧ (4 : Nat) ≤ maxArgSize ilp32 :=
  copy_args_write_bounds ilp32 false 1 (some ['%','d']) [ArgTy.argInt]
    [⟨0, 4⟩] 4 ⟨0, 4⟩
    (by simp +decide [log_format_copy_args_to_buffer, copyLoop, convSpec,
      takeArg, skipFlagsWidthPrecision, skipPrecisionPart, skipDigits,
      skipFlags, isFlagChar, isDigitChar, ArgTy.size, ilp32])
    (by simp)

/-- C5 counterexample: on the valid non-null format "hi" (no conversion
specifications) with capacity 5, the capture returns 0 although no input is
invalid and the capacity is non-zero. -/
theorem copy_args_zero_counterexample :
    log_format_copy_args_to_buffer ilp32 false 5 (some ['h','i']) []
      = some ([], 0) ∧ (0 : Nat) < 5 := by
  constructor
  · simp +decide [log_format_copy_args_to_buffer, copyLoop, convSpec, takeArg,
      skipFlagsWidthPrecision, skipPrecisionPart, skipDigits, skipFlags,
      isFlagChar, isDigitChar, ArgTy.size, ilp32]
  · decide

/-- C5 amended: with matching arguments, log_format_copy_args_to_buffer
returns 0 exactly when an input is invalid (null buffer or null format), the
capacity is 0, or the format string requires no argument bytes at all
(log_format_calculate_buffer_size of it is 0). -/
theorem copy_args_return_zero_iff (sm : SizeModel) (bufferIsNull : Bool)
    (cap : Nat) (fmt_str : Option (List Char)) (args : List ArgTy)
    (ws : List WriteEvent) (n : Nat)
    (hargs : ∀ f, fmt_str = some f → args = argTypes f)
    (hrun : log_format_copy_args_to_buffer sm bufferIsNull cap fmt_str args
      = some (ws, n)) :
    (n = 0 ↔ (bufferIsNull = true ∨ fmt_str = none ∨ cap = 0 ∨
      log_format_calculate_buffer_size sm fmt_str = 0)) := by
  unfold log_format_copy_args_to_buffer at hrun
  cases fmt_str with
  | none =>
    simp at hrun
    simp [hrun.2.symm]
  | some f =>
    simp only [] at hrun
    by_cases hc : (bufferIsNull : Bool) = true ∨ cap = 0
    · rw [if_pos (by simpa using hc)] at hrun
      simp at hrun
      simp [hrun.2.symm]
      rcases hc with hc | hc
      · exact Or.inl hc
      · exact Or.inr (Or.inl hc)
    · rw [if_neg (by simpa using hc)] at hrun
      push_neg at hc
      obtain ⟨hb, hcap⟩ := hc
      rw [hargs f rfl] at hrun
      have hiff := copyLoop_matching_zero_iff sm cap (by omega) f ws n hrun
      rw [hiff]
      unfold log_format_calculate_buffer_size
      simp [hb, hcap]

/-- C5 amended witness: the concrete no-conversion capture - its 0 return
agrees with the format requiring 0 argument bytes. -/
theorem copy_args_return_zero_iff_witness :
    ((0 : Nat) = 0 ↔ ((false : Bool) = true ∨
      (some ['h','i'] : Option (List Char)) = none ∨ (5 : Nat) = 0 ∨
      log_format_calculate_buffer_size ilp32 (some ['h','i']) = 0)) :=
  copy_args_return_zero_iff ilp32 false 5 (some ['h','i']) [] [] 0
    (fun f hf => by
      cases hf
      simp +decide [argTypes, convSpec, skipFlagsWidthPrecision,
        skipPrecisionPart, skipDigits, skipFlags, isFlagChar, isDigitChar])
    (by simp +decide [log_format_copy_args_to_buffer, copyLoop, convSpec,
      takeArg, skipFlagsWidthPrecision, skipPrecisionPart, skipDigits,
      skipFlags, isFlagChar, isDigitChar, ArgTy.size, ilp32])


/-- C3: log_queue_deferred_message follows the submit algorithm - a null
format string returns -EINVAL with pool and queue untouched; a failed pool
allocation returns -ENOSPC with pool and queue untouched; when the computed
argument size is positive and the capture writes 0 bytes the allocated
message is freed and - EIO returned; otherwise the message is enqueued and
log_queue_send's status returned. -/
theorem deferred_message_algorithm (sm : SizeModel) (ps : PoolState)
    (qs : QueueState) (fmt_str : Option (List Char)) (args : List ArgTy) :
    (fmt_str = none →
      log_queue_deferred_message sm ps qs fmt_str args
        = some (-EINVAL, ps, qs)) ∧
    (∀ f, fmt_str = some f →
      (log_pool_alloc sm ps (log_format_calculate_buffer_size sm fmt_str)).1
          = none →
      log_queue_deferred_message sm ps qs fmt_str args
        = some (-ENOSPC, ps, qs)) ∧
    (∀ f msg ps1 ws, fmt_str = some f →
      log_pool_alloc sm ps (log_format_calculate_buffer_size sm fmt_str)
          = (some msg, ps1) →
      0 < log_format_calculate_buffer_size sm fmt_str →
      log_format_copy_args_to_buffer sm false
          (log_format_calculate_buffer_size sm fmt_str) fmt_str args
          = some (ws, 0) →
      log_queue_deferred_message sm ps qs fmt_str args
        = some (- EIO, log_pool_free sm ps1 (some msg), qs)) ∧
    (∀ f msg ps1 ws n, fmt_str = some f →
      log_pool_alloc sm ps (log_format_calculate_buffer_size sm fmt_str)
          = (some msg, ps1) →
      log_format_copy_args_to_buffer sm false
          (log_format_calculate_buffer_size sm fmt_str) fmt_str args
          = some (ws, n) →
      (0 < log_format_calculate_buffer_size sm fmt_str → n ≠ 0) →
      log_queue_deferred_message sm ps qs fmt_str args
        = some ((log_queue_send qs (some msg)).1, ps1,
            (log_queue_send qs (some msg)).2)) := by
  refine ⟨?_, ?_, ?_, ?_⟩
  · intro h
    subst h
    rfl
  · intro f hf halloc
    subst hf
    have heq := log_pool_alloc_none_of_fst_none sm ps
      (log_format_calculate_buffer_size sm (some f)) halloc
    unfold log_queue_deferred_message
    simp only []
    rw [heq]
  · intro f msg ps1 ws hf halloc hpos hcopy
    subst hf
    unfold log_queue_deferred_message
    simp only []
    rw [halloc]
    simp only []
    rw [if_pos hpos]
    rw [hcopy]
    simp
  · intro f msg ps1 ws n hf halloc hcopy hnz
    subst hf
    unfold log_queue_deferred_message
    simp only []
    rw [halloc]
    simp only []
    by_cases hpos : 0 < log_format_calculate_buffer_size sm (some f)
    · rw [if_pos hpos, hcopy]
      simp only []
      rw [if_neg (hnz hpos)]
    · rw [if_neg hpos]

/-- C3 witness: branch one (null format) and branch two (pool allocation
failure on the uninitialized pool) at concrete states. -/
theorem deferred_message_algorithm_witness :
    log_queue_deferred_message ilp32 poolAfterInit queueAfterInit none []
      = some (-EINVAL, poolAfterInit, queueAfterInit) ∧
    log_queue_deferred_message ilp32 poolBeforeInit queueAfterInit
        (some ['x']) [] = some (-ENOSPC, poolBeforeInit, queueAfterInit) := by
  constructor
  · exact (deferred_message_algorithm ilp32 poolAfterInit queueAfterInit
      none []).1 rfl
  · exact (deferred_message_algorithm ilp32 poolBeforeInit queueAfterInit
      (some ['x']) []).2.1 ['x'] rfl (by
        simp +decide [log_pool_alloc, poolBeforeInit])

end FreeRTOSLogger
